import Mathlib

/-!
Verification of the vibecon backend core against its specification.

The development shallowly embeds the two core algorithms and their callers:

* `GitHubCommitAnalyzer.get_commits_since` (src/backend/github_commit_analyzer.py):
  resolve a reference commit, then page through the commit listing collecting
  records newer than the reference, skipping the reference itself and bounding
  the result by `max_commits`.  The remote listing is embedded as the sequence
  of pages the source returns (`List (List RawCommit)`); a page index beyond
  that sequence yields an empty page, which is exactly the end-of-data signal
  the loop reacts to.
* `GitHubCommitAnalyzer.get_commit_diff` / `get_multiple_commit_diffs`
  (same file): deterministic text formatting of one or many commit payloads.
* `print_tree` (src/backend/treeprinter.py): pure rendering of a pre-order,
  depth-annotated row sequence into an ASCII tree.
* `analyze_commits` (src/backend/server.py): the route-level sync operation,
  embedded with explicit checkpoint-store state passing and an explicit log of
  the HTTP requests it issues.

Python `int` values are embedded as `Int`; strings as `String`; fallible
lookups as `Except` carrying the error text.
-/

/-- A raw commit as served by the listing endpoint: its sha and full message
(`commit.sha`, `commit.commit.message` in the JSON payload). -/
structure RawCommit where
  sha : String
  message : String
deriving DecidableEq, Repr

/-- An element of `get_commits_since`'s result: the dict
`{"commit_id": ..., "description": ...}` built at
github_commit_analyzer.py lines 100-107. -/
structure CommitInfo where
  commit_id : String
  description : String
deriving DecidableEq, Repr

/-- Python `message.split("\n")[0]`: the first line of a commit message — the first
chunk of the newline-split of the message (the whole message when it has no
newline). -/
def firstLine (s : String) : String :=
  String.mk ((s.data.splitOn '\n').headD [])

/-- The reduction of a raw commit to `{commit_id, description}`. -/
def toInfo (c : RawCommit) : CommitInfo :=
  { commit_id := c.sha, description := firstLine c.message }

/-- The inner `for commit in commits` loop of `get_commits_since`
(github_commit_analyzer.py lines 95-110): skip the reference commit, append
the reduced record, and break once `max_commits` is reached. -/
def processPage (sinceId : String) (maxC : Int) (acc : List CommitInfo) :
    List RawCommit → List CommitInfo
  | [] => acc
  | c :: rest =>
    if c.sha = sinceId then
      processPage sinceId maxC acc rest
    else
      let acc' := acc ++ [toInfo c]
      if maxC ≤ (acc'.length : Int) then acc'
      else processPage sinceId maxC acc' rest

/-- The outer `while len(all_commits) < max_commits` pagination loop of
`get_commits_since` (github_commit_analyzer.py lines 88-116).  The remote
source is embedded as the list of successive pages it serves; requesting a
page past the end of that list yields the empty page.  The second component
counts the list requests actually issued. -/
def gcsLoop (sinceId : String) (maxC perPage : Int) (acc : List CommitInfo) :
    List (List RawCommit) → List CommitInfo × Nat
  | [] =>
    -- the next request (made only if the loop guard holds) returns an empty
    -- page, and `if not commits: break` fires
    if (acc.length : Int) < maxC then (acc, 1) else (acc, 0)
  | page :: rest =>
    if (acc.length : Int) < maxC then
      if page.isEmpty then (acc, 1)
      else
        let acc' := processPage sinceId maxC acc page
        if (page.length : Int) < perPage then (acc', 1)
        else
          let r := gcsLoop sinceId maxC perPage acc' rest
          (r.1, r.2 + 1)
    else (acc, 0)

/-- The paging part of `get_commits_since`, with the page size
`per_page = min(max_commits, 100)` fixed at github_commit_analyzer.py line 83. -/
def get_commits_since_core (sinceId : String) (maxC : Int)
    (pages : List (List RawCommit)) : List CommitInfo × Nat :=
  gcsLoop sinceId maxC (min maxC 100) [] pages

/-- Embeds `GitHubCommitAnalyzer.get_commits_since` (github_commit_analyzer.py
lines 51-118).  `refLookup` embeds the detail request for the reference commit: on
HTTP failure the function raises `ValueError("Could not find commit ...")`;
on success the reference's committer date only feeds the listing parameters,
which are already folded into `pages`. -/
def get_commits_since (sinceId : String) (maxC : Int)
    (refLookup : Except String String) (pages : List (List RawCommit)) :
    Except String (List CommitInfo) :=
  match refLookup with
  | .error e => .error ("Could not find commit " ++ sinceId ++ ": " ++ e)
  | .ok _ => .ok (get_commits_since_core sinceId maxC pages).1

/-- Number of listing-endpoint requests `get_commits_since` issues (the
reference-detail request is not counted). -/
def get_commits_since_list_requests (sinceId : String) (maxC : Int)
    (refLookup : Except String String) (pages : List (List RawCommit)) : Nat :=
  match refLookup with
  | .error _ => 0
  | .ok _ => (get_commits_since_core sinceId maxC pages).2

/-- A row of the flat pre-order tree query result (treeprinter.py): a dict
with `id`, `name` and `depth` fields.  `id` is whatever the store uses
(rendered through `str(...)` by the f-string), `depth` a Python int. -/
structure TreeRow (α : Type) where
  id : α
  name : String
  depth : Int
deriving DecidableEq, Repr

/-- Python `set.add`: membership-preserving insert into `active_depths`. -/
def setAdd (s : List Int) (d : Int) : List Int :=
  if d ∈ s then s else d :: s

/-- Python `set.discard`: remove `d` from `active_depths` if present. -/
def setDiscard (s : List Int) (d : Int) : List Int :=
  s.filter (fun x => x ≠ d)

/-- The `for j in range(i + 1, len(rows))` lookahead of treeprinter.py lines
37-43: scan the remaining rows; a row strictly shallower than `depth` ends the
scan with no sibling found, a row at exactly `depth` means a later sibling
exists. -/
def hasMoreSiblings {α : Type} (depth : Int) : List (TreeRow α) → Bool
  | [] => false
  | r :: rest =>
    if r.depth < depth then false
    else if r.depth = depth then true
    else hasMoreSiblings depth rest

/-- The `for d in range(1, depth)` prefix builder of treeprinter.py lines
29-34, reformulated on the iteration count `n = depth - 1`: level `d` (for
`d = 1 .. n`) contributes a continuation bar if `d` is in `active_depths`,
else four spaces. -/
def indentOf (active : List Int) : Nat → String
  | 0 => ""
  | n + 1 =>
    indentOf active n ++ (if ((n : Int) + 1) ∈ active then "│   " else "    ")

/-- The body of the `for i, row in enumerate(rows)` loop of treeprinter.py
lines 18-53, threading `active_depths` and producing one line per row. -/
def printTreeGo {α : Type} [ToString α] (active : List Int) :
    List (TreeRow α) → List String
  | [] => []
  | row :: rest =>
    if row.depth = 0 then
      (row.name ++ " (" ++ toString row.id ++ ")") :: printTreeGo active rest
    else
      let more := hasMoreSiblings row.depth rest
      let active' := if more then setAdd active row.depth
                     else setDiscard active row.depth
      let conn := if more then "├── " else "└── "
      (indentOf active (row.depth - 1).toNat ++ conn ++ row.name ++ " (" ++
          toString row.id ++ ")") ::
        printTreeGo active' rest

/-- Embeds `print_tree` (treeprinter.py lines 1-55): `""` on empty input, otherwise
the newline-join of the per-row lines. -/
def print_tree {α : Type} [ToString α] (rows : List (TreeRow α)) : String :=
  match rows with
  | [] => ""
  | _ :: _ => String.intercalate "\n" (printTreeGo [] rows)

/-- The 80-character `'=' * 80` rule used by the diff formatter. -/
def eqRule : String :=
  String.mk (List.replicate 80 '=')

/-- The 80-character `'-' * 80` rule used between file blocks. -/
def dashRule : String :=
  String.mk (List.replicate 80 '-')

/-- One entry of the commit payload's `files` array
(github_commit_analyzer.py lines 170-189).  `additions`/`deletions` carry the
`.get(..., 0)` defaults already applied; `patch` is `none` when the JSON has
no `patch` key. -/
structure FileChange where
  filename : String
  status : String
  additions : Int
  deletions : Int
  patch : Option String
deriving DecidableEq, Repr

/-- The commit detail payload consumed by `get_commit_diff`
(github_commit_analyzer.py lines 137-189).  `stats` is `none` when the JSON
has no `stats` key, otherwise the `(additions, deletions)` pair with the
`.get(..., 0)` defaults applied; a missing `files` key is the empty list. -/
structure CommitDetail where
  sha : String
  message : String
  authorName : String
  authorEmail : String
  authorDate : String
  stats : Option (Int × Int)
  files : List FileChange
deriving DecidableEq, Repr

/-- The per-file block appended by the `for file_data in ...` loop of
`get_commit_diff` (github_commit_analyzer.py lines 170-189). -/
def fileBlock (f : FileChange) (include_patch : Bool) : List String :=
  ["[File]", f.filename, "", "[Status]", f.status, "", "[Changes]",
    "+" ++ toString f.additions ++ " -" ++ toString f.deletions, ""] ++
  (if include_patch then
    match f.patch with
    | some t => ["[Diff]", t, ""]
    | none => []
  else []) ++
  [dashRule, ""]

/-- The `output` line list of `get_commit_diff`
(github_commit_analyzer.py lines 145-189). -/
def formatCommitDetail (d : CommitDetail) (include_patch : Bool) : List String :=
  ["[Commit ID]", d.sha, "", "[Description]", d.message, "", "[Author]",
    d.authorName ++ " <" ++ d.authorEmail ++ ">", "", "[Date]", d.authorDate,
    "", "[Stats]", "Files changed: " ++ toString d.files.length] ++
  (match d.stats with
   | some p => ["Additions: " ++ toString p.1, "Deletions: " ++ toString p.2]
   | none => []) ++
  ["", eqRule, ""] ++
  (d.files.map (fun f => fileBlock f include_patch)).flatten

/-- Embeds `GitHubCommitAnalyzer.get_commit_diff` (github_commit_analyzer.py
lines 120-191).  `lookup` embeds the detail request; on HTTP failure the function
raises `ValueError("Could not find commit ...")`. -/
def get_commit_diff (lookup : String → Except String CommitDetail)
    (commit_id : String) (include_patch : Bool) : Except String String :=
  match lookup commit_id with
  | .error e => .error ("Could not find commit " ++ commit_id ++ ": " ++ e)
  | .ok d => .ok (String.intercalate "\n" (formatCommitDetail d include_patch))

/-- The `for i, commit_id in enumerate(commit_ids, 1)` loop of
`get_multiple_commit_diffs` (github_commit_analyzer.py lines 209-218):
banner lines, then either the formatted diff or the inline error line. -/
def multiBlocks (lookup : String → Except String CommitDetail) (n : Nat)
    (include_patch : Bool) : Nat → List String → List String
  | _, [] => []
  | i, cid :: rest =>
    ("\n" ++ eqRule) ::
    ("COMMIT " ++ toString i ++ " of " ++ toString n) ::
    (eqRule ++ "\n") ::
    (match get_commit_diff lookup cid include_patch with
     | .ok s => s
     | .error e => "Error getting diff for " ++ cid ++ ": " ++ e ++ "\n") ::
    multiBlocks lookup n include_patch (i + 1) rest

/-- Embeds `GitHubCommitAnalyzer.get_multiple_commit_diffs`
(github_commit_analyzer.py lines 193-220). -/
def get_multiple_commit_diffs (lookup : String → Except String CommitDetail)
    (commit_ids : List String) (include_patch : Bool) : String :=
  String.intercalate "\n" (multiBlocks lookup commit_ids.length include_patch 1 commit_ids)

/-- A row of the `repo_sync_state` table (supabase_client.py): the last
synced commit hash for a repository. -/
structure SyncState where
  last_commit_hash : String
deriving DecidableEq, Repr

/-- The checkpoint store: `repo_name → sync state`, `none` when no row
exists for that repository. -/
def StoreState : Type := String → Option SyncState

/-- Embeds `update_repo_sync_state` (supabase_client.py lines 101-128): create or
update the single row for `repo_name`. -/
def update_repo_sync_state (store : StoreState) (repo_name last_commit_hash : String) :
    StoreState :=
  fun r => if r = repo_name then some ⟨last_commit_hash⟩ else store r

/-- The request body of POST /api/analyze_commits (server.py lines 46-50). -/
structure AnalyzeReq where
  repo_id : String
  branch : String
  max_commits : Int
  update_last_sync : Bool
deriving DecidableEq, Repr

/-- The success response of /api/analyze_commits (server.py lines 149-155). -/
structure AnalyzeResp where
  commits : List CommitInfo
  is_first_sync : Bool
  last_synced_commit : Option String
deriving DecidableEq, Repr

/-- A GitHub HTTP request issued by `analyze_commits`, as observable
behaviour: the reference-detail lookup, a page of the `since`-filtered
listing (with its page number), or the single unfiltered, page-parameter-free
listing request of the first-sync path (server.py lines 129-132). -/
inductive GhRequest where
  | refDetail (commit_id : String)
  | listSince (branch since : String) (perPage : Int) (page : Nat)
  | listLatest (branch : String) (perPage : Int)
deriving DecidableEq, Repr

/-- The GitHub side as `analyze_commits` sees it: the reference-detail
endpoint (id ↦ committer date or error), the successive pages served to the
`since`-filtered listing, and the page served to the unfiltered first-sync
request as a function of its parameters. -/
structure HistorySource where
  refDetail : String → Except String String
  sincePages : List (List RawCommit)
  latest : (branch : String) → (perPage : Int) → List RawCommit

/-- The existing-checkpoint path of `analyze_commits` (server.py lines
117-125 and 145-147): run `get_commits_since` from the stored hash, write
the head commit back only under the `update_last_sync` flag with a
non-empty result; a reference-lookup failure becomes the handler's 500
error, with the store untouched. -/
def analyzeWithState (gh : HistorySource) (store : StoreState)
    (req : AnalyzeReq) (st : SyncState) :
    Except String AnalyzeResp × StoreState × List GhRequest :=
  match gh.refDetail st.last_commit_hash with
  | .error e =>
    (.error ("Could not find commit " ++ st.last_commit_hash ++ ": " ++ e),
      store, [.refDetail st.last_commit_hash])
  | .ok d =>
    let r := get_commits_since_core st.last_commit_hash req.max_commits gh.sincePages
    let log := GhRequest.refDetail st.last_commit_hash ::
      (List.range r.2).map
        (fun k => .listSince req.branch d (min req.max_commits 100) (k + 1))
    let store' :=
      if r.1 ≠ [] ∧ req.update_last_sync = true then
        update_repo_sync_state store req.repo_id
          ((r.1.headD ⟨"", ""⟩).commit_id)
      else store
    (.ok ⟨r.1, false, some st.last_commit_hash⟩, store', log)

/-- The first-sync path of `analyze_commits` (server.py lines 126-143): one
unfiltered, page-parameter-free request of size `min(max_commits, 10)`,
mapped to `{commit_id, description}`, with the head commit written back only
under the `update_last_sync` flag. -/
def analyzeFirstSync (gh : HistorySource) (store : StoreState)
    (req : AnalyzeReq) :
    Except String AnalyzeResp × StoreState × List GhRequest :=
  let commits := (gh.latest req.branch (min req.max_commits 10)).map toInfo
  let store' :=
    if commits ≠ [] ∧ req.update_last_sync = true then
      update_repo_sync_state store req.repo_id
        ((commits.headD ⟨"", ""⟩).commit_id)
    else store
  (.ok ⟨commits, true, none⟩, store',
    [.listLatest req.branch (min req.max_commits 10)])

/-- Embeds `analyze_commits` (server.py lines 106-157), with the checkpoint
store
passed explicitly and the issued GitHub requests logged.  Returns the HTTP
response (or the 500 error detail), the resulting store, and the request
log.  The store is written only at server.py lines 142-143 and 146-147,
both guarded by `update_last_sync` and a non-empty commit list. -/
def analyze_commits (gh : HistorySource) (store : StoreState) (req : AnalyzeReq) :
    Except String AnalyzeResp × StoreState × List GhRequest :=
  match store req.repo_id with
  | some st => analyzeWithState gh store req st
  | none => analyzeFirstSync gh store req

/-- The commit list the existing-checkpoint path computes: empty when the
reference lookup fails (the handler 500s before any store write). -/
def analyzeCommitsListWithState (gh : HistorySource) (req : AnalyzeReq)
    (st : SyncState) : List CommitInfo :=
  match gh.refDetail st.last_commit_hash with
  | .error _ => []
  | .ok _ =>
    (get_commits_since_core st.last_commit_hash req.max_commits gh.sincePages).1

/-- The commit list `analyze_commits` computes, on its own. -/
def analyzeCommitsList (gh : HistorySource) (store : StoreState)
    (req : AnalyzeReq) : List CommitInfo :=
  match store req.repo_id with
  | some st => analyzeCommitsListWithState gh req st
  | none => (gh.latest req.branch (min req.max_commits 10)).map toInfo

/-- Whether `pat` occurs at the head of `s`, character by character. -/
def matchesAt : List Char → List Char → Bool
  | [], _ => true
  | _ :: _, [] => false
  | p :: ps, c :: cs => p == c && matchesAt ps cs

/-- Whether `pat` occurs contiguously anywhere in `s`. -/
def containsSeq (pat : List Char) : List Char → Bool
  | [] => matchesAt pat []
  | c :: cs => matchesAt pat (c :: cs) || containsSeq pat cs

/-- Fixture: a minimal commit detail payload (no stats, no files). -/
def cdA : CommitDetail :=
  ⟨"shaA", "msgA line1\nmore", "Ann", "ann@example.com", "2024-01-01T00:00:00Z",
    none, []⟩

/-- Fixture: a commit detail payload with stats and one file. -/
def cdC : CommitDetail :=
  ⟨"shaC", "msgC", "Cee", "cee@example.com", "2024-01-02T00:00:00Z",
    some (3, 1), [⟨"f.py", "modified", 3, 1, some "@@ -1 +1 @@"⟩]⟩

/-- Fixture: a detail endpoint on which the id "b" (and any unknown id)
fails with a 404, while "a" and "c" resolve. -/
def lookupFix : String → Except String CommitDetail :=
  fun s =>
    if s = "a" then .ok cdA
    else if s = "c" then .ok cdC
    else .error "404 Not Found"

/-- Fixture: a history source for the first-sync path, serving one page of
two records to the unfiltered listing. -/
def ghFix : HistorySource :=
  { refDetail := fun _ => .error "404 Not Found"
    sincePages := []
    latest := fun _ _ => [⟨"l1", "new stuff\ndetails"⟩, ⟨"l2", "older"⟩] }

/-- Fixture: the empty checkpoint store. -/
def storeEmpty : StoreState :=
  fun _ => none

/-- Fixture: an /api/analyze_commits request with the defaults of server.py
lines 46-50. -/
def reqFix : AnalyzeReq :=
  ⟨"owner/repo", "main", 20, false⟩

/-- The inner loop never appends a record whose sha is the reference id:
stated as preservation of the `commit_id != sinceId` invariant. -/
theorem processPage_all_ne (sinceId : String) (maxC : Int)
    (page : List RawCommit) :
    ∀ acc : List CommitInfo,
      acc.all (fun e => e.commit_id != sinceId) = true →
      (processPage sinceId maxC acc page).all
        (fun e => e.commit_id != sinceId) = true := by
  induction page with
  | nil => intro acc h; exact h
  | cons c rest ih =>
    intro acc h
    simp only [processPage]
    by_cases hc : c.sha = sinceId
    · rw [if_pos hc]; exact ih acc h
    · rw [if_neg hc]
      have h' : (acc ++ [toInfo c]).all (fun e => e.commit_id != sinceId) = true := by
        rw [List.all_append, h, Bool.true_and, List.all_cons, List.all_nil,
          Bool.and_true]
        simpa [toInfo] using hc
      by_cases hm : maxC ≤ ((acc ++ [toInfo c]).length : Int)
      · rw [if_pos hm]; exact h'
      · rw [if_neg hm]; exact ih _ h'

/-- The pagination loop preserves the `commit_id != sinceId` invariant. -/
theorem gcsLoop_all_ne (sinceId : String) (maxC perPage : Int)
    (pages : List (List RawCommit)) :
    ∀ acc : List CommitInfo,
      acc.all (fun e => e.commit_id != sinceId) = true →
      (gcsLoop sinceId maxC perPage acc pages).1.all
        (fun e => e.commit_id != sinceId) = true := by
  induction pages with
  | nil =>
    intro acc h
    simp only [gcsLoop]
    by_cases hg : ((acc.length : Int) < maxC)
    · rw [if_pos hg]; exact h
    · rw [if_neg hg]; exact h
  | cons page rest ih =>
    intro acc h
    simp only [gcsLoop]
    by_cases hg : ((acc.length : Int) < maxC)
    · rw [if_pos hg]
      by_cases he : page.isEmpty = true
      · rw [if_pos he]; exact h
      · rw [if_neg he]
        by_cases hs : ((page.length : Int) < perPage)
        · rw [if_pos hs]; exact processPage_all_ne sinceId maxC page acc h
        · rw [if_neg hs]; exact ih _ (processPage_all_ne sinceId maxC page acc h)
    · rw [if_neg hg]; exact h

/-- C1: for every reference id, bound, reference lookup outcome and sequence
of pages served by the source, the list returned by `get_commits_since`
contains no element whose `commit_id` equals the reference id
(github_commit_analyzer.py lines 95-98 skip it defensively). -/
theorem get_commits_since_excludes_reference (sinceId : String) (maxC : Int)
    (refLookup : Except String String) (pages : List (List RawCommit))
    (l : List CommitInfo)
    (h : get_commits_since sinceId maxC refLookup pages = .ok l) :
    l.all (fun e => e.commit_id != sinceId) = true := by
  cases refLookup with
  | error e => simp [get_commits_since] at h
  | ok d =>
    simp only [get_commits_since, Except.ok.injEq] at h
    subst h
    exact gcsLoop_all_ne sinceId maxC (min maxC 100) pages [] rfl

/-- C1 witness: a concrete run in which the source echoes the reference
commit back; the result excludes it. -/
theorem get_commits_since_excludes_reference_witness :
    ([⟨"y", "hello"⟩] : List CommitInfo).all (fun e => e.commit_id != "x") = true :=
  get_commits_since_excludes_reference "x" 5 (.ok "2024-01-01")
    [[⟨"x", "ref"⟩, ⟨"y", "hello\nworld"⟩]] [⟨"y", "hello"⟩] rfl

/-- The inner loop never grows the accumulator beyond `maxC`, provided it is
entered with fewer than `maxC` records (which the outer guard ensures). -/
theorem processPage_length_le (sinceId : String) (maxC : Int)
    (page : List RawCommit) :
    ∀ acc : List CommitInfo, (acc.length : Int) < maxC →
      ((processPage sinceId maxC acc page).length : Int) ≤ maxC := by
  induction page with
  | nil => intro acc h; exact le_of_lt h
  | cons c rest ih =>
    intro acc h
    simp only [processPage]
    by_cases hc : c.sha = sinceId
    · rw [if_pos hc]; exact ih acc h
    · rw [if_neg hc]
      have hlen : (acc ++ [toInfo c]).length = acc.length + 1 := by simp
      by_cases hm : maxC ≤ ((acc ++ [toInfo c]).length : Int)
      · rw [if_pos hm]; omega
      · rw [if_neg hm]; exact ih _ (by omega)

/-- The pagination loop never grows the accumulator beyond `maxC`. -/
theorem gcsLoop_length_le (sinceId : String) (maxC perPage : Int)
    (pages : List (List RawCommit)) :
    ∀ acc : List CommitInfo, (acc.length : Int) ≤ maxC →
      ((gcsLoop sinceId maxC perPage acc pages).1.length : Int) ≤ maxC := by
  induction pages with
  | nil =>
    intro acc h
    simp only [gcsLoop]
    by_cases hg : ((acc.length : Int) < maxC)
    · rw [if_pos hg]; exact h
    · rw [if_neg hg]; exact h
  | cons page rest ih =>
    intro acc h
    simp only [gcsLoop]
    by_cases hg : ((acc.length : Int) < maxC)
    · rw [if_pos hg]
      by_cases he : page.isEmpty = true
      · rw [if_pos he]; exact h
      · rw [if_neg he]
        by_cases hs : ((page.length : Int) < perPage)
        · rw [if_pos hs]; exact processPage_length_le sinceId maxC page acc hg
        · rw [if_neg hs]; exact ih _ (processPage_length_le sinceId maxC page acc hg)
    · rw [if_neg hg]; exact h

/-- C2 counterexample: at `max_commits = -1` the claim `len(result) <=
max_commits` fails — the loop guard is never true, the function returns the
empty list, and `0 ≤ -1` is false.  (Python `int` is signed, and
`analyze_commits` forwards the caller-supplied `max_commits` unchecked.) -/
theorem get_commits_since_length_bound_fails_at_negative :
    get_commits_since "a" (-1) (.ok "2024-01-01") [] = .ok [] ∧
      (-1 : Int) < (([] : List CommitInfo).length : Int) :=
  ⟨rfl, by decide⟩

/-- C2 (amended): for every nonnegative `max_commits`, the list returned by
`get_commits_since` has length at most `max_commits`. -/
theorem get_commits_since_length_le (sinceId : String) (maxC : Int)
    (refLookup : Except String String) (pages : List (List RawCommit))
    (l : List CommitInfo) (h0 : 0 ≤ maxC)
    (h : get_commits_since sinceId maxC refLookup pages = .ok l) :
    (l.length : Int) ≤ maxC := by
  cases refLookup with
  | error e => simp [get_commits_since] at h
  | ok d =>
    simp only [get_commits_since, Except.ok.injEq] at h
    subst h
    simpa [get_commits_since_core] using
      gcsLoop_length_le sinceId maxC (min maxC 100) pages [] (by simpa using h0)

/-- C2 witness: a concrete run with `max_commits = 1` returning one record. -/
theorem get_commits_since_length_le_witness :
    (([⟨"a", "m1"⟩] : List CommitInfo).length : Int) ≤ 1 :=
  get_commits_since_length_le "x" 1 (.ok "2024-01-01")
    [[⟨"a", "m1"⟩, ⟨"b", "m2"⟩]] [⟨"a", "m1"⟩] (by decide) rfl

/-- After a page shorter than `perPage` at index `i`, the loop issues no
further request: the total number of list requests is at most `i + 1`. -/
theorem gcsLoop_requests_le (sinceId : String) (maxC perPage : Int)
    (pages : List (List RawCommit)) :
    ∀ (i : Nat) (hi : i < pages.length),
      ((pages.get ⟨i, hi⟩).length : Int) < perPage →
      ∀ acc : List CommitInfo,
        (gcsLoop sinceId maxC perPage acc pages).2 ≤ i + 1 := by
  induction pages with
  | nil => intro i hi; exact absurd hi (by simp)
  | cons page rest ih =>
    intro i hi hshort acc
    simp only [gcsLoop]
    by_cases hg : ((acc.length : Int) < maxC)
    · rw [if_pos hg]
      by_cases he : page.isEmpty = true
      · rw [if_pos he]; show 1 ≤ i + 1; omega
      · rw [if_neg he]
        cases i with
        | zero =>
          have hs : ((page.length : Int) < perPage) := by simpa using hshort
          rw [if_pos hs]
        | succ i =>
          by_cases hs : ((page.length : Int) < perPage)
          · rw [if_pos hs]; show 1 ≤ i + 1 + 1; omega
          · rw [if_neg hs]
            show (gcsLoop sinceId maxC perPage
                (processPage sinceId maxC acc page) rest).2 + 1 ≤ i + 1 + 1
            have hi' : i < rest.length := by
              have := hi; simp only [List.length_cons] at this; omega
            have := ih i hi' (by simpa using hshort)
              (processPage sinceId maxC acc page)
            omega
    · rw [if_neg hg]; show 0 ≤ i + 1; omega

/-- C3: whenever the source serves, at any index `i`, a page with fewer rows
than the requested page size `min(max_commits, 100)`, `get_commits_since`
requests no page beyond it: at most `i + 1` list requests are issued in total
(github_commit_analyzer.py lines 112-116). -/
theorem get_commits_since_stops_after_short_page (sinceId : String)
    (maxC : Int) (refLookup : Except String String)
    (pages : List (List RawCommit)) (i : Nat) (hi : i < pages.length)
    (hshort : ((pages.get ⟨i, hi⟩).length : Int) < min maxC 100) :
    get_commits_since_list_requests sinceId maxC refLookup pages ≤ i + 1 := by
  cases refLookup with
  | error e => simp [get_commits_since_list_requests]
  | ok d =>
    simpa [get_commits_since_list_requests, get_commits_since_core] using
      gcsLoop_requests_le sinceId maxC (min maxC 100) pages i hi hshort []

/-- C3 witness: a single short page (1 row, page size 5) stops pagination at
one request. -/
theorem get_commits_since_stops_after_short_page_witness :
    get_commits_since_list_requests "x" 5 (.ok "2024-01-01")
      [[⟨"a", "m"⟩]] ≤ 0 + 1 :=
  get_commits_since_stops_after_short_page "x" 5 (.ok "2024-01-01")
    [[⟨"a", "m"⟩]] 0 (by decide) (by decide)

/-- C9: for `max_commits ≤ 0` the reference lookup still happens first — an
unresolvable reference id still fails with the reference-not-found error —
while a successful lookup leads to no list request at all and an empty
result, because the loop guard `len(all_commits) < max_commits` is false
immediately. -/
theorem get_commits_since_nonpositive_max (sinceId : String) (maxC : Int)
    (hmax : maxC ≤ 0) (pages : List (List RawCommit)) (e d : String) :
    get_commits_since sinceId maxC (.error e) pages =
      .error ("Could not find commit " ++ sinceId ++ ": " ++ e) ∧
    get_commits_since sinceId maxC (.ok d) pages = .ok [] ∧
    get_commits_since_list_requests sinceId maxC (.ok d) pages = 0 := by
  have hg : ¬ (((([] : List CommitInfo).length) : Int) < maxC) := by
    simp only [List.length_nil, Nat.cast_zero]
    omega
  refine ⟨rfl, ?_, ?_⟩
  · show Except.ok (get_commits_since_core sinceId maxC pages).1 = Except.ok []
    cases pages with
    | nil => simp only [get_commits_since_core, gcsLoop]; rw [if_neg hg]
    | cons p ps => simp only [get_commits_since_core, gcsLoop]; rw [if_neg hg]
  · show (get_commits_since_core sinceId maxC pages).2 = 0
    cases pages with
    | nil => simp only [get_commits_since_core, gcsLoop]; rw [if_neg hg]
    | cons p ps => simp only [get_commits_since_core, gcsLoop]; rw [if_neg hg]

/-- C9 witness: `max_commits = -2` with a non-empty source. -/
theorem get_commits_since_nonpositive_max_witness :
    get_commits_since "x" (-2) (.error "404") [[⟨"a", "m"⟩]] =
      .error ("Could not find commit " ++ "x" ++ ": " ++ "404") ∧
    get_commits_since "x" (-2) (.ok "2024-01-01") [[⟨"a", "m"⟩]] = .ok [] ∧
    get_commits_since_list_requests "x" (-2) (.ok "2024-01-01") [[⟨"a", "m"⟩]] = 0 :=
  get_commits_since_nonpositive_max "x" (-2) (by decide) [[⟨"a", "m"⟩]] "404"
    "2024-01-01"

/-- C4: the four-row example renders exactly the expected tree. -/
theorem print_tree_example :
    print_tree ([⟨1, "Python", 0⟩, ⟨2, "Functions", 1⟩, ⟨3, "Classes", 1⟩,
        ⟨4, "Decorators", 2⟩] : List (TreeRow Nat)) =
      "Python (1)\n├── Functions (2)\n└── Classes (3)\n    └── Decorators (4)" := by
  decide

/-- C7 counterexample: on rows with a depth jump of 2 — a detectable
violation of the pre-order depth invariant — `print_tree` signals nothing:
the source function raises no exception on this input (it performs no
invariant check at all) and returns this silently mis-rendered string, with
blank columns for the skipped level. -/
theorem print_tree_depth_jump_not_loud :
    print_tree ([⟨1, "A", 0⟩, ⟨2, "B", 2⟩] : List (TreeRow Nat)) =
      "A (1)" ++ "\n" ++ ("    └── " ++ "B" ++ " (" ++ "2" ++ ")") := by
  decide

/-- C7 (amended): `print_tree` performs no depth-invariant validation; on a
row sequence whose second row jumps from depth 0 to depth 2 it silently
returns a rendered string (spaces standing in for the skipped level), for
every name and id. -/
theorem print_tree_depth_jump_renders (a b : String) (i j : Nat) :
    print_tree ([⟨i, a, 0⟩, ⟨j, b, 2⟩] : List (TreeRow Nat)) =
      a ++ " (" ++ toString i ++ ")" ++ "\n" ++
        ("    └── " ++ b ++ " (" ++ toString j ++ ")") := rfl

/-- Appending strings concatenates their character data. -/
theorem stringDataAppend (s t : String) : (s ++ t).data = s.data ++ t.data := by
  cases s
  cases t
  rfl

/-- The character data of `String.intercalate.go`. -/
theorem stringIntercalateGoData (s : String) :
    ∀ (as : List String) (acc : String),
      (String.intercalate.go acc s as).data =
        acc.data ++ (as.map (fun a => s.data ++ a.data)).flatten := by
  intro as
  induction as with
  | nil => intro acc; simp [String.intercalate.go]
  | cons a as ih =>
    intro acc
    rw [String.intercalate.go, ih, stringDataAppend, stringDataAppend]
    simp [List.append_assoc]

/-- Unfolding `List.intercalate` of a cons, unfolded to a flat concatenation. -/
theorem listIntercalateCons {α : Type} (sep : List α) (x : List α) :
    ∀ xs : List (List α),
      List.intercalate sep (x :: xs) =
        x ++ (xs.map (fun y => sep ++ y)).flatten := by
  intro xs
  induction xs generalizing x with
  | nil => simp [List.intercalate, List.intersperse]
  | cons y ys ih =>
    have h := ih y
    simp only [List.intercalate, List.intersperse] at h ⊢
    simp [h, List.append_assoc]

/-- The character data of `String.intercalate`. -/
theorem stringIntercalateData (s : String) (l : List String) :
    (String.intercalate s l).data =
      List.intercalate s.data (l.map String.data) := by
  cases l with
  | nil => simp [String.intercalate, List.intercalate, List.intersperse]
  | cons a as =>
    rw [String.intercalate, stringIntercalateGoData, List.map_cons,
      listIntercalateCons]
    congr 1
    rw [List.map_map]
    rfl

/-- The loop `printTreeGo` emits exactly one line per row. -/
theorem printTreeGo_length {α : Type} [ToString α] :
    ∀ (rows : List (TreeRow α)) (active : List Int),
      (printTreeGo active rows).length = rows.length := by
  intro rows
  induction rows with
  | nil => intro active; rfl
  | cons row rest ih =>
    intro active
    simp only [printTreeGo]
    by_cases hd : row.depth = 0
    · rw [if_pos hd]
      simp [ih]
    · rw [if_neg hd]
      simp [ih]

/-- Newline-freedom is preserved by appending. -/
theorem appendNoNewline {s t : String} (hs : ∀ c ∈ s.data, c ≠ '\n')
    (ht : ∀ c ∈ t.data, c ≠ '\n') : ∀ c ∈ (s ++ t).data, c ≠ '\n' := by
  intro c hc
  rw [stringDataAppend] at hc
  rcases List.mem_append.mp hc with h | h
  · exact hs c h
  · exact ht c h

/-- The glyph columns built for the left margin contain no newline. -/
theorem indentOf_no_newline (active : List Int) :
    ∀ n, ∀ c ∈ (indentOf active n).data, c ≠ '\n' := by
  intro n
  induction n with
  | zero => intro c hc; simp [indentOf] at hc
  | succ n ih =>
    simp only [indentOf]
    by_cases hm : ((n : Int) + 1) ∈ active
    · rw [if_pos hm]
      exact appendNoNewline ih (by decide)
    · rw [if_neg hm]
      exact appendNoNewline ih (by decide)

/-- Every line `printTreeGo` produces is newline-free, provided the row
names and rendered ids are. -/
theorem printTreeGo_no_newline {α : Type} [ToString α] :
    ∀ (rows : List (TreeRow α)),
      (∀ r ∈ rows, (∀ c ∈ r.name.data, c ≠ '\n') ∧
        (∀ c ∈ (toString r.id).data, c ≠ '\n')) →
      ∀ (active : List Int), ∀ line ∈ printTreeGo active rows,
        ∀ c ∈ line.data, c ≠ '\n' := by
  intro rows
  induction rows with
  | nil => intro _ active line hline; simp [printTreeGo] at hline
  | cons row rest ih =>
    intro hrows active line hline
    have hhead := hrows row (List.mem_cons_self row rest)
    have hrest := fun r hr => hrows r (List.mem_cons_of_mem row hr)
    simp only [printTreeGo] at hline
    by_cases hd : row.depth = 0
    · rw [if_pos hd] at hline
      rcases List.mem_cons.mp hline with h | h
      · subst h
        exact appendNoNewline (appendNoNewline (appendNoNewline hhead.1
          (by decide)) hhead.2) (by decide)
      · exact ih hrest active line h
    · rw [if_neg hd] at hline
      rcases List.mem_cons.mp hline with h | h
      · subst h
        refine appendNoNewline (appendNoNewline (appendNoNewline
          (appendNoNewline (appendNoNewline (indentOf_no_newline active _) ?_)
            hhead.1) (by decide)) hhead.2) (by decide)
        by_cases hm : hasMoreSiblings row.depth rest = true
        · rw [if_pos hm]; decide
        · rw [if_neg hm]; decide
      · exact ih hrest _ line h

/-- C10 counterexample: a single row whose name contains a newline renders
to a string that splits into 2 lines, not `len(rows) = 1` — the claim as
stated fails when a name embeds a newline. -/
theorem print_tree_newline_name_breaks_line_count :
    ((print_tree ([⟨1, "a\nb", 0⟩] : List (TreeRow Nat))).split
        (fun c => c == '\n')).length = 2 ∧
      ([⟨1, "a\nb", 0⟩] : List (TreeRow Nat)).length = 1 := by
  constructor
  · rw [String.split_of_valid]
    decide
  · rfl

/-- C10 (amended): for every non-empty row sequence whose names and rendered
ids are newline-free, splitting `print_tree rows` on the newline character
yields exactly the per-row line list — in particular exactly `rows.length`
lines, the i-th generated from the i-th row. -/
theorem print_tree_one_line_per_row {α : Type} [ToString α]
    (rows : List (TreeRow α)) (hne : rows ≠ [])
    (hclean : ∀ r ∈ rows, (∀ c ∈ r.name.data, c ≠ '\n') ∧
      (∀ c ∈ (toString r.id).data, c ≠ '\n')) :
    (print_tree rows).split (fun c => c == '\n') = printTreeGo [] rows ∧
    ((print_tree rows).split (fun c => c == '\n')).length = rows.length := by
  obtain ⟨r, rs, rfl⟩ : ∃ r rs, rows = r :: rs := by
    cases rows with
    | nil => exact absurd rfl hne
    | cons r rs => exact ⟨r, rs, rfl⟩
  have hlen : (printTreeGo ([] : List Int) (r :: rs)).length = (r :: rs).length :=
    printTreeGo_length (r :: rs) []
  have hlines_ne : printTreeGo ([] : List Int) (r :: rs) ≠ [] := by
    intro h
    rw [h] at hlen
    simp at hlen
  have hmap_ne : (printTreeGo ([] : List Int) (r :: rs)).map String.data ≠ [] := by
    simpa using hlines_ne
  have hx : ∀ ld ∈ (printTreeGo ([] : List Int) (r :: rs)).map String.data,
      '\n' ∉ ld := by
    intro ld hld
    rcases List.mem_map.mp hld with ⟨line, hline, rfl⟩
    intro hmem
    exact printTreeGo_no_newline (r :: rs) hclean [] line hline '\n' hmem rfl
  have hsplit : (print_tree (r :: rs)).split (fun c => c == '\n') =
      printTreeGo ([] : List Int) (r :: rs) := by
    have h1 : print_tree (r :: rs) =
        String.intercalate "\n" (printTreeGo ([] : List Int) (r :: rs)) := rfl
    rw [h1, String.split_of_valid, stringIntercalateData]
    have h2 : List.splitOnP (fun c => c == '\n')
        (List.intercalate ("\n").data
          ((printTreeGo ([] : List Int) (r :: rs)).map String.data)) =
        (List.intercalate ['\n']
          ((printTreeGo ([] : List Int) (r :: rs)).map String.data)).splitOn '\n' :=
      rfl
    rw [h2, List.splitOn_intercalate
      ((printTreeGo ([] : List Int) (r :: rs)).map String.data) '\n' hx hmap_ne,
      List.map_map]
    have h3 : (String.mk ∘ String.data) = (id : String → String) := by
      funext s
      cases s
      rfl
    rw [h3, List.map_id]
  exact ⟨hsplit, by rw [hsplit]; exact hlen⟩

/-- C10 witness: a concrete two-row tree splits into exactly its two lines. -/
theorem print_tree_one_line_per_row_witness :
    (print_tree ([⟨1, "Python", 0⟩, ⟨2, "Functions", 1⟩] : List (TreeRow Nat))).split
        (fun c => c == '\n') =
      printTreeGo [] ([⟨1, "Python", 0⟩, ⟨2, "Functions", 1⟩] : List (TreeRow Nat)) ∧
    ((print_tree ([⟨1, "Python", 0⟩, ⟨2, "Functions", 1⟩] : List (TreeRow Nat))).split
        (fun c => c == '\n')).length =
      ([⟨1, "Python", 0⟩, ⟨2, "Functions", 1⟩] : List (TreeRow Nat)).length :=
  print_tree_one_line_per_row _ (by decide) (by decide)

set_option maxRecDepth 100000 in
set_option maxHeartbeats 2000000 in
/-- C5 counterexample: in the 3-id batch with the 2nd lookup failing, the
output string nowhere contains the banner text "ITEM 1 of 3" claimed by the
spec — the source writes "COMMIT i of N" banners
(github_commit_analyzer.py line 211). -/
theorem get_multiple_commit_diffs_no_item_banner :
    containsSeq ("ITEM 1 of 3").toList
      (get_multiple_commit_diffs lookupFix ["a", "b", "c"] true).toList = false := by
  decide

/-- C5 (amended): with 3 identifiers whose 2nd lookup fails, the batch
formatter still returns all 3 blocks in input order, each preceded by its
"COMMIT i of 3" banner, the failing identifier contributing an inline error
line in place of its block body — one bad identifier never aborts the batch. -/
theorem get_multiple_commit_diffs_isolates_failure
    (lookup : String → Except String CommitDetail) (a b c : String) (p : Bool)
    (da dc : CommitDetail) (e : String)
    (ha : lookup a = .ok da) (hb : lookup b = .error e)
    (hc : lookup c = .ok dc) :
    get_multiple_commit_diffs lookup [a, b, c] p =
      String.intercalate "\n"
        ["\n" ++ eqRule, "COMMIT 1 of 3", eqRule ++ "\n",
          String.intercalate "\n" (formatCommitDetail da p),
          "\n" ++ eqRule, "COMMIT 2 of 3", eqRule ++ "\n",
          "Error getting diff for " ++ b ++ ": " ++
            ("Could not find commit " ++ b ++ ": " ++ e) ++ "\n",
          "\n" ++ eqRule, "COMMIT 3 of 3", eqRule ++ "\n",
          String.intercalate "\n" (formatCommitDetail dc p)] := by
  have Ha : get_commit_diff lookup a p =
      .ok (String.intercalate "\n" (formatCommitDetail da p)) := by
    unfold get_commit_diff
    rw [ha]
  have Hb : get_commit_diff lookup b p =
      .error ("Could not find commit " ++ b ++ ": " ++ e) := by
    unfold get_commit_diff
    rw [hb]
  have Hc : get_commit_diff lookup c p =
      .ok (String.intercalate "\n" (formatCommitDetail dc p)) := by
    unfold get_commit_diff
    rw [hc]
  unfold get_multiple_commit_diffs
  simp only [multiBlocks, Ha, Hb, Hc, List.length_cons, List.length_nil]
  rw [show ("COMMIT " ++ toString (1 : Nat) ++ " of " ++
      toString (0 + 1 + 1 + 1 : Nat)) = "COMMIT 1 of 3" from rfl,
    show ("COMMIT " ++ toString (2 : Nat) ++ " of " ++
      toString (0 + 1 + 1 + 1 : Nat)) = "COMMIT 2 of 3" from rfl,
    show ("COMMIT " ++ toString (3 : Nat) ++ " of " ++
      toString (0 + 1 + 1 + 1 : Nat)) = "COMMIT 3 of 3" from rfl]

/-- C5 witness: the concrete 3-id batch against `lookupFix`. -/
theorem get_multiple_commit_diffs_isolates_failure_witness :
    get_multiple_commit_diffs lookupFix ["a", "b", "c"] true =
      String.intercalate "\n"
        ["\n" ++ eqRule, "COMMIT 1 of 3", eqRule ++ "\n",
          String.intercalate "\n" (formatCommitDetail cdA true),
          "\n" ++ eqRule, "COMMIT 2 of 3", eqRule ++ "\n",
          "Error getting diff for " ++ "b" ++ ": " ++
            ("Could not find commit " ++ "b" ++ ": " ++ "404 Not Found") ++ "\n",
          "\n" ++ eqRule, "COMMIT 3 of 3", eqRule ++ "\n",
          String.intercalate "\n" (formatCommitDetail cdC true)] :=
  get_multiple_commit_diffs_isolates_failure lookupFix "a" "b" "c" true cdA cdC
    "404 Not Found" rfl rfl rfl

/-- C6: the only checkpoint write in the whole operation.  The sync engine
`get_commits_since` is embedded as a pure function of the source data — it
has no access to the store — and `analyze_commits` leaves the store exactly
unchanged unless `update_last_sync` is true and the computed commit list is
non-empty, in which case it upserts the head commit id; in particular, with
the flag false the store is unchanged on both the first-sync and the
existing-checkpoint paths, and on the reference-lookup error path. -/
theorem analyze_commits_store_writes (gh : HistorySource) (store : StoreState)
    (req : AnalyzeReq) :
    (analyze_commits gh store req).2.1 =
      if analyzeCommitsList gh store req ≠ [] ∧ req.update_last_sync = true then
        update_repo_sync_state store req.repo_id
          (((analyzeCommitsList gh store req).headD ⟨"", ""⟩).commit_id)
      else store := by
  cases hs : store req.repo_id with
  | none =>
    rw [show analyze_commits gh store req = analyzeFirstSync gh store req by
        unfold analyze_commits; rw [hs],
      show analyzeCommitsList gh store req =
          (gh.latest req.branch (min req.max_commits 10)).map toInfo by
        unfold analyzeCommitsList; rw [hs]]
    rfl
  | some st =>
    rw [show analyze_commits gh store req = analyzeWithState gh store req st by
        unfold analyze_commits; rw [hs],
      show analyzeCommitsList gh store req =
          analyzeCommitsListWithState gh req st by
        unfold analyzeCommitsList; rw [hs]]
    unfold analyzeWithState analyzeCommitsListWithState
    cases hr : gh.refDetail st.last_commit_hash with
    | error e => simp
    | ok d => rfl

/-- C8: when no checkpoint exists for the repository, `analyze_commits`
issues exactly one listing request — to the endpoint with no `since` time
filter and no page parameter, with page size `min(max_commits, 10)` — and
returns that single page mapped to `{commit_id, first message line}`; the
request log shows no second page is ever requested. -/
theorem analyze_commits_first_sync (gh : HistorySource) (store : StoreState)
    (req : AnalyzeReq) (h : store req.repo_id = none) :
    (analyze_commits gh store req).1 =
      .ok ⟨(gh.latest req.branch (min req.max_commits 10)).map toInfo, true, none⟩ ∧
    (analyze_commits gh store req).2.2 =
      [.listLatest req.branch (min req.max_commits 10)] := by
  unfold analyze_commits
  rw [h]
  exact ⟨rfl, rfl⟩

/-- C8 witness: the concrete first sync against `ghFix` with
`max_commits = 20` fetches one page of size 10 and maps it. -/
theorem analyze_commits_first_sync_witness :
    (analyze_commits ghFix storeEmpty reqFix).1 =
      .ok ⟨[⟨"l1", "new stuff"⟩, ⟨"l2", "older"⟩], true, none⟩ ∧
    (analyze_commits ghFix storeEmpty reqFix).2.2 =
      [.listLatest "main" 10] :=
  analyze_commits_first_sync ghFix storeEmpty reqFix rfl
